import Mathlib

/-!
Shallow embedding of `pkg/dtb/dtb.go` (distributed token bucket).

Time is modelled as `Int` nanoseconds (Go `time.Time` / `time.Duration`).
Go's `t.Unix()` truncates to whole seconds, rounding toward negative
infinity; this is `Int.fdiv · nsPerSec`.  `time.Unix(s, 0)` turns a
second count back into a nanosecond instant (`fromUnix`).

Redis is an external collaborator: each embedded operation takes the
store's responses as an explicit environment and returns, besides its
result, the list of Redis commands it issued (so that claims about
which keys are read and written, and how often, can be stated).
Errors are opaque in the Go code; they are modelled as `Nat`.
-/

namespace DTBGo

abbrev Err := Nat

def nsPerSec : Int := 1000000000

/-- Go `t.Unix()`: whole seconds of a nanosecond instant (floor). -/
def unixOf (t : Int) : Int := Int.fdiv t nsPerSec

/-- Go `time.Unix(s, 0)` as a nanosecond instant. -/
def fromUnix (s : Int) : Int := s * nsPerSec

/-- The configuration part of the Go `DTB` struct (`bucketName`,
`capacity`, `cadence`).  The redis client and the error channel are
modelled separately (environments and the fault cell). -/
structure DTB where
  bucketName : String
  capacity : Int
  cadence : Int
deriving DecidableEq, Repr

/-- `func (dtb *DTB) lockKey() string` : `fmt.Sprintf("%v_lock", dtb.bucketName)`. -/
def DTB.lockKey (dtb : DTB) : String := dtb.bucketName ++ "_lock"

/-- `func (dtb *DTB) lockDuration() time.Duration` : `time.Duration(2) * dtb.cadence`. -/
def DTB.lockDuration (dtb : DTB) : Int := 2 * dtb.cadence

/-- A Redis command as issued by the client, with the key and any value
written.  `lpush` carries no payload because the Go code pushes `nil`. -/
inductive RedisOp where
  | setNX (key : String) (val : Int)
  | get (key : String)
  | getSet (key : String) (val : Int)
  | set (key : String) (val : Int)
  | llen (key : String)
  | lpush (key : String)
  | brpop (timeout : Int) (key : String)
deriving DecidableEq, Repr

/-- Store responses consumed by one call of `acquireLock`.
`getSetCmdErr` is `val.Err()` of the `GetSet` command and `getSetInt`
is the subsequent `val.Int64()` conversion, mirroring the two separate
error checks in the Go code. -/
structure AcquireLockEnv where
  setNXRes : Except Err Bool
  getRes : Except Err Int
  getSetCmdErr : Option Err
  getSetInt : Except Err Int
deriving Repr

/-- `func (dtb *DTB) acquireLock() (*int64, error)` at instant `now`.
Result `.ok (some v)` is Go `(&lockVal, nil)` (became owner),
`.ok none` is `(nil, nil)` (not owner, no error), `.error e` is
`(nil, err)`.  The second component is the list of Redis commands
issued, in order. -/
def acquireLock (dtb : DTB) (now : Int) (env : AcquireLockEnv) :
    Except Err (Option Int) × List RedisOp :=
  let lockVal := unixOf (now + dtb.lockDuration)
  let key := dtb.lockKey
  match env.setNXRes with
  | .error e => (.error e, [.setNX key lockVal])
  | .ok acquired =>
    if acquired then
      (.ok (some lockVal), [.setNX key lockVal])
    else
      match env.getRes with
      | .error e => (.error e, [.setNX key lockVal, .get key])
      | .ok lockUnix =>
        -- `time.Unix(lockUnix, 0).Before(now)` : the lock is expired
        if fromUnix lockUnix < now then
          let ops := [RedisOp.setNX key lockVal, .get key, .getSet key lockVal]
          match env.getSetCmdErr with
          | some e => (.error e, ops)
          | none =>
            match env.getSetInt with
            | .error e => (.error e, ops)
            | .ok i =>
              -- `time.Unix(i, 0).After(now)` : someone else still has the lock
              if now < fromUnix i then (.ok none, ops)
              else (.ok (some lockVal), ops)
        else
          (.ok none, [.setNX key lockVal, .get key])

/-- Store responses consumed by one iteration of `fill`'s active loop:
`now` is the `time.Now()` taken for the renewal write, `llenRes` and
`lpushRes` are the `LLen` / `LPush` command results, and `setRes` is
the result of the renewal `Set` — the Go code discards it, so the
field is never inspected by `fillTick`. -/
structure TickEnv where
  now : Int
  llenRes : Except Err Int
  lpushRes : Except Err Int
  setRes : Except Err Unit
deriving Repr

/-- What one active-loop iteration does to the loop: post a fault and
return, or keep going. -/
inductive TickOutcome where
  | fault (e : Err)
  | cont
deriving DecidableEq, Repr

/-- One iteration of the second (`time.Tick`) loop body of
`func (dtb *DTB) fill()`: read `LLen`, push one `nil` placeholder when
under capacity, then unconditionally `Set` the lock key to
`time.Now().Add(dtb.lockDuration()).Unix()` with the command result
discarded.  Returns the outcome and the Redis commands issued. -/
def fillTick (dtb : DTB) (env : TickEnv) : TickOutcome × List RedisOp :=
  match env.llenRes with
  | .error e => (.fault e, [.llen dtb.bucketName])
  | .ok tokensInBucket =>
    if tokensInBucket < dtb.capacity then
      match env.lpushRes with
      | .error e => (.fault e, [.llen dtb.bucketName, .lpush dtb.bucketName])
      | .ok _ =>
        (.cont, [.llen dtb.bucketName, .lpush dtb.bucketName,
                 .set dtb.lockKey (unixOf (env.now + dtb.lockDuration))])
    else
      (.cont, [.llen dtb.bucketName,
               .set dtb.lockKey (unixOf (env.now + dtb.lockDuration))])

/-- Observable events of the `fill` goroutine: sleeping, issuing a
Redis command, and sending on the `dtb.errors` channel. -/
inductive FillEvent where
  | sleep (d : Int)
  | redis (op : RedisOp)
  | postErr (e : Err)
deriving DecidableEq, Repr

/-- Control state of `fill`: the first (`lockID == nil`) loop, the
second (`time.Tick`) loop, or returned. -/
inductive FillPhase where
  | acquiring
  | active
  | stopped
deriving DecidableEq, Repr

/-- Input for one iteration of the acquiring loop: the `time.Now()`
inside `acquireLock` and the store responses it consumes. -/
structure AcquireInput where
  now : Int
  env : AcquireLockEnv
deriving Repr

/-- One iteration of `fill`'s first loop: `time.Sleep(dtb.cadence)`,
then `acquireLock`; on error send on `dtb.errors` and return, on a
non-nil `lockID` fall through to the active loop, on `(nil, nil)`
loop again. -/
def acquiringStep (dtb : DTB) (inp : AcquireInput) : FillPhase × List FillEvent :=
  let r := acquireLock dtb inp.now inp.env
  let evs := FillEvent.sleep dtb.cadence :: r.2.map FillEvent.redis
  match r.1 with
  | .error e => (.stopped, evs ++ [.postErr e])
  | .ok (some _) => (.active, evs)
  | .ok none => (.acquiring, evs)

/-- One iteration of `fill`'s active loop: run `fillTick`; on a fault
send on `dtb.errors` and return, otherwise continue. -/
def activeStep (dtb : DTB) (env : TickEnv) : FillPhase × List FillEvent :=
  let r := fillTick dtb env
  match r.1 with
  | .fault e => (.stopped, r.2.map FillEvent.redis ++ [.postErr e])
  | .cont => (.active, r.2.map FillEvent.redis)

/-- Per-iteration input for `fill`: the phase in force selects which
half is consumed. -/
structure FillInput where
  acq : AcquireInput
  tick : TickEnv
deriving Repr

/-- The state of the `fill` goroutine: the bucket handle it closes
over and its control phase.  The Go code never assigns to the handle's
fields, so steps carry `dtb` through unchanged. -/
structure FillMachine where
  dtb : DTB
  phase : FillPhase
deriving Repr

/-- One scheduler step of `fill`.  A stopped goroutine does nothing. -/
def fillStep (m : FillMachine) (inp : FillInput) : FillMachine × List FillEvent :=
  match m.phase with
  | .acquiring =>
    let r := acquiringStep m.dtb inp.acq
    (⟨m.dtb, r.1⟩, r.2)
  | .active =>
    let r := activeStep m.dtb inp.tick
    (⟨m.dtb, r.1⟩, r.2)
  | .stopped => (m, [])

/-- Run `fill` through a finite prefix of iterations, collecting the
events in order. -/
def fillRun (m : FillMachine) : List FillInput → FillMachine × List FillEvent
  | [] => (m, [])
  | inp :: rest =>
    let r := fillStep m inp
    let rr := fillRun r.1 rest
    (rr.1, r.2 ++ rr.2)

/-- Number of sends on the `dtb.errors` channel among the events. -/
def postCount : List FillEvent → Nat
  | [] => 0
  | .postErr _ :: rest => postCount rest + 1
  | .sleep _ :: rest => postCount rest
  | .redis _ :: rest => postCount rest

/-- `func (dtb *DTB) GetToken() error`.  `faultCheck` is what the
non-blocking `select` on `dtb.errors` yields; `popRes` is the result
of `BRPop`, which the Go code discards.  Returns the error returned to
the caller and the Redis commands issued. -/
def GetToken (dtb : DTB) (faultCheck : Option Err) (popRes : Except Err (List String)) :
    Option Err × List RedisOp :=
  match faultCheck with
  | some msg => (some msg, [])
  | none => (none, [.brpop 0 dtb.bucketName])

/-- The state a `GetToken` caller interacts with: the bucket handle
(never written by the Go code) and the fault cell — the `errors`
channel holding at most one pending message, which a receive
consumes. -/
structure ClientState where
  dtb : DTB
  cell : Option Err
deriving Repr

/-- One `GetToken` call against the client state: a pending fault is
consumed and returned without touching the queue; otherwise `BRPop`
is issued and `nil` returned.  Returns the state afterwards, the
caller's result, and the Redis commands issued. -/
def getTokenStep (s : ClientState) (popRes : Except Err (List String)) :
    ClientState × Option Err × List RedisOp :=
  match s.cell with
  | some msg => (⟨s.dtb, none⟩, some msg, [])
  | none => (⟨s.dtb, none⟩, none, [.brpop 0 s.dtb.bucketName])

/-- A sequence of `GetToken` calls: the final state and the list of
results, in call order. -/
def getTokenRun (s : ClientState) :
    List (Except Err (List String)) → ClientState × List (Option Err)
  | [] => (s, [])
  | pop :: rest =>
    let r := getTokenStep s pop
    let rr := getTokenRun r.1 rest
    (rr.1, r.2.1 :: rr.2)

/-- The values written to key `key` by a list of Redis commands
(`SetNX`, `GetSet` and `Set` are the writing commands). -/
def lockWrites (key : String) (ops : List RedisOp) : List Int :=
  ops.filterMap fun op => match op with
    | .setNX k v => if k = key then some v else none
    | .getSet k v => if k = key then some v else none
    | .set k v => if k = key then some v else none
    | _ => none

/-- Number of `LPush` commands on key `key` in a command list. -/
def pushCount (key : String) (ops : List RedisOp) : Nat :=
  ops.countP fun op => match op with
    | .lpush k => k = key
    | _ => false

/-! ## Helper lemmas -/

/-- Truncating an instant to whole seconds never moves it forward, and
moves it back by strictly less than one second. -/
theorem fromUnix_unixOf_bounds (t : Int) :
    fromUnix (unixOf t) ≤ t ∧ t - nsPerSec < fromUnix (unixOf t) := by
  unfold fromUnix unixOf nsPerSec
  rw [Int.fdiv_eq_ediv _ (by norm_num)]
  omega

/-- The Redis command trace of `acquireLock` is one of three prefixes:
`SetNX` alone, `SetNX; Get`, or `SetNX; Get; GetSet`, all on the lock
key, with both written values equal to the candidate lease value. -/
theorem acquireLock_ops (dtb : DTB) (now : Int) (env : AcquireLockEnv) :
    (acquireLock dtb now env).2 =
      [.setNX dtb.lockKey (unixOf (now + dtb.lockDuration))] ∨
    (acquireLock dtb now env).2 =
      [.setNX dtb.lockKey (unixOf (now + dtb.lockDuration)), .get dtb.lockKey] ∨
    (acquireLock dtb now env).2 =
      [.setNX dtb.lockKey (unixOf (now + dtb.lockDuration)), .get dtb.lockKey,
       .getSet dtb.lockKey (unixOf (now + dtb.lockDuration))] := by
  rcases env with ⟨s, g, ge, gi⟩
  rcases s with e | b
  · simp [acquireLock]
  · cases b
    · rcases g with e | lockUnix
      · simp [acquireLock]
      · by_cases h : fromUnix lockUnix < now
        · rcases ge with _ | e
          · rcases gi with e | i
            · simp [acquireLock, h]
            · by_cases h2 : now < fromUnix i <;> simp [acquireLock, h, h2]
          · simp [acquireLock, h]
        · simp [acquireLock, h]
    · simp [acquireLock]

/-- The Redis command trace of `fillTick`: `LLen` alone (length read
failed), `LLen; LPush` (push failed), or those followed by the renewal
`Set` of the lock key to the fresh candidate lease value. -/
theorem fillTick_ops (dtb : DTB) (env : TickEnv) :
    (fillTick dtb env).2 = [.llen dtb.bucketName] ∨
    (fillTick dtb env).2 = [.llen dtb.bucketName, .lpush dtb.bucketName] ∨
    (fillTick dtb env).2 =
      [.llen dtb.bucketName, .lpush dtb.bucketName,
       .set dtb.lockKey (unixOf (env.now + dtb.lockDuration))] ∨
    (fillTick dtb env).2 =
      [.llen dtb.bucketName,
       .set dtb.lockKey (unixOf (env.now + dtb.lockDuration))] := by
  rcases env with ⟨n0, l, p, sr⟩
  rcases l with e | tokensInBucket
  · simp [fillTick]
  · by_cases h : tokensInBucket < dtb.capacity
    · rcases p with e | k <;> simp [fillTick, h]
    · simp [fillTick, h]

/-! ## Claims -/

/-- C5.  `GetToken` first performs a non-blocking check of the fault
channel: when a fault is pending it consumes and returns it at once,
issuing no Redis command at all; otherwise it issues a single `BRPop`
on the token queue with timeout `0` (indefinite wait) and returns no
error. -/
theorem getToken_fault_then_pop (dtb : DTB) (e : Err)
    (pop : Except Err (List String)) :
    GetToken dtb (some e) pop = (some e, []) ∧
    GetToken dtb none pop = (none, [.brpop 0 dtb.bucketName]) :=
  ⟨rfl, rfl⟩

/-- C10.  When no fault is pending `GetToken` returns `nil`
unconditionally: the `BRPop` result (`popRes`) is discarded, so even a
store failure during the pop yields a `nil` return; in general the
returned value is exactly what the fault check yielded, so the only
non-nil return comes from the fault channel. -/
theorem getToken_nil_unless_fault (dtb : DTB) (fc : Option Err) (e : Err)
    (pop : Except Err (List String)) :
    (GetToken dtb none pop).1 = none ∧
    (GetToken dtb none (.error e)).1 = none ∧
    (GetToken dtb fc pop).1 = fc := by
  refine ⟨rfl, rfl, ?_⟩
  cases fc <;> rfl

/-- C8.  The lease duration used for both acquisition and renewal is
exactly `2 × cadence` (every value written to the lock key is the
truncation of `now + 2 × cadence`), and the lock key used by every
lease operation is the bucket name with `"_lock"` appended. -/
theorem lease_duration_and_lock_key (dtb : DTB) (now : Int)
    (env : AcquireLockEnv) (tenv : TickEnv) :
    dtb.lockDuration = 2 * dtb.cadence ∧
    dtb.lockKey = dtb.bucketName ++ "_lock" ∧
    (∀ op ∈ (acquireLock dtb now env).2,
      op = RedisOp.setNX dtb.lockKey (unixOf (now + 2 * dtb.cadence)) ∨
      op = RedisOp.get dtb.lockKey ∨
      op = RedisOp.getSet dtb.lockKey (unixOf (now + 2 * dtb.cadence))) ∧
    (∀ k v, RedisOp.set k v ∈ (fillTick dtb tenv).2 →
      k = dtb.lockKey ∧ v = unixOf (tenv.now + 2 * dtb.cadence)) := by
  have hdur : dtb.lockDuration = 2 * dtb.cadence := rfl
  refine ⟨rfl, rfl, ?_, ?_⟩
  · intro op hop
    rcases acquireLock_ops dtb now env with h | h | h <;>
      rw [h, hdur] at hop <;> simp at hop <;> tauto
  · intro k v hmem
    rcases fillTick_ops dtb tenv with h | h | h | h <;>
      rw [h] at hmem <;> simp [hdur] at hmem <;> tauto

/-- Witness for C8 at bucket `"b"`, capacity 5, cadence 7ns: the
`SetNX` issued by a successful acquisition at `now` = 100 targets the
lock key with the candidate value, and the renewal `Set` of a tick at
`now` = 0 writes `unixOf (0 + 2 × 7)` to `"b_lock"`. -/
theorem lease_duration_and_lock_key_witness :
    (RedisOp.setNX (DTB.lockKey ⟨"b", 5, 7⟩) (unixOf (100 + 2 * 7)) =
        RedisOp.setNX (DTB.lockKey ⟨"b", 5, 7⟩) (unixOf (100 + 2 * 7)) ∨
      RedisOp.setNX (DTB.lockKey ⟨"b", 5, 7⟩) (unixOf (100 + 2 * 7)) =
        RedisOp.get (DTB.lockKey ⟨"b", 5, 7⟩) ∨
      RedisOp.setNX (DTB.lockKey ⟨"b", 5, 7⟩) (unixOf (100 + 2 * 7)) =
        RedisOp.getSet (DTB.lockKey ⟨"b", 5, 7⟩) (unixOf (100 + 2 * 7))) ∧
    ("b_lock" = DTB.lockKey ⟨"b", 5, 7⟩ ∧ (0 : Int) = unixOf (0 + 2 * 7)) :=
  ⟨(lease_duration_and_lock_key ⟨"b", 5, 7⟩ 100 ⟨.ok true, .ok 0, none, .ok 0⟩
      ⟨0, .ok 0, .ok 1, .ok ()⟩).2.2.1 _ (by decide),
   (lease_duration_and_lock_key ⟨"b", 5, 7⟩ 100 ⟨.ok true, .ok 0, none, .ok 0⟩
      ⟨0, .ok 0, .ok 1, .ok ()⟩).2.2.2 "b_lock" 0 (by decide)⟩

/-- C1.  When the initial `SetNX` fails (key already present) and the
stored lease value `v` is read: if `v` is still in the future the call
returns not-owner with no error; if `v` has already passed, a `GetSet`
swap writing the candidate value is issued, and the call becomes owner
(returning the candidate value, the whole-second truncation of
`now + 2 × cadence`) exactly when the previous value `p` returned by
the swap was not still in the future at the instant `now` of the read,
while a still-valid `p` yields not-owner with no error. -/
theorem acquireLock_setnx_fails_cases (dtb : DTB) (now v : Int)
    (env : AcquireLockEnv)
    (hset : env.setNXRes = .ok false) (hget : env.getRes = .ok v) :
    (now < fromUnix v → (acquireLock dtb now env).1 = .ok none) ∧
    (fromUnix v < now →
      RedisOp.getSet dtb.lockKey (unixOf (now + dtb.lockDuration)) ∈
        (acquireLock dtb now env).2 ∧
      (env.getSetCmdErr = none → ∀ p, env.getSetInt = .ok p →
        ((acquireLock dtb now env).1 =
            .ok (some (unixOf (now + dtb.lockDuration))) ↔ fromUnix p ≤ now) ∧
        (now < fromUnix p → (acquireLock dtb now env).1 = .ok none))) := by
  constructor
  · intro hv
    have hnl : ¬ (fromUnix v < now) := by omega
    simp [acquireLock, hset, hget, hnl]
  · intro hv
    rcases hge : env.getSetCmdErr with _ | e
    · rcases hgi : env.getSetInt with e | i
      · refine ⟨by simp [acquireLock, hset, hget, hv, hge, hgi], ?_⟩
        intro _ p hp
        exact absurd hp (by simp)
      · refine ⟨?_, ?_⟩
        · by_cases h2 : now < fromUnix i <;>
            simp [acquireLock, hset, hget, hv, hge, hgi, h2]
        · intro _ p hp
          injection hp with hip
          rw [← hip]
          constructor
          · by_cases h2 : now < fromUnix i <;>
              simp [acquireLock, hset, hget, hv, hge, hgi, h2] <;> omega
          · intro h2
            simp [acquireLock, hset, hget, hv, hge, hgi, h2]
    · refine ⟨by simp [acquireLock, hset, hget, hv, hge], ?_⟩
      intro hnone
      exact absurd hnone (by simp)

/-- Witness for C1 at a concrete input: bucket `"b"`, capacity 5,
cadence 1s, `now` = 10s, `SetNX` fails, stored value 13s (future),
swap responses present but unused on this path. -/
theorem acquireLock_setnx_fails_cases_witness :
    ((10000000000 : Int) < fromUnix 13 →
      (acquireLock ⟨"b", 5, 1000000000⟩ 10000000000
          ⟨.ok false, .ok 13, none, .ok 0⟩).1 = .ok none) ∧
    (fromUnix 13 < (10000000000 : Int) →
      RedisOp.getSet (DTB.lockKey ⟨"b", 5, 1000000000⟩)
          (unixOf (10000000000 + DTB.lockDuration ⟨"b", 5, 1000000000⟩)) ∈
        (acquireLock ⟨"b", 5, 1000000000⟩ 10000000000
          ⟨.ok false, .ok 13, none, .ok 0⟩).2 ∧
      ((none : Option Err) = none → ∀ p, (Except.ok 0 : Except Err Int) = .ok p →
        ((acquireLock ⟨"b", 5, 1000000000⟩ 10000000000
            ⟨.ok false, .ok 13, none, .ok 0⟩).1 =
          .ok (some (unixOf (10000000000 + DTB.lockDuration ⟨"b", 5, 1000000000⟩))) ↔
            fromUnix p ≤ 10000000000) ∧
        ((10000000000 : Int) < fromUnix p →
          (acquireLock ⟨"b", 5, 1000000000⟩ 10000000000
            ⟨.ok false, .ok 13, none, .ok 0⟩).1 = .ok none))) :=
  acquireLock_setnx_fails_cases ⟨"b", 5, 1000000000⟩ 10000000000 13
    ⟨.ok false, .ok 13, none, .ok 0⟩ rfl rfl

/-- C2.  On an active-state tick whose queue-length read returns `n`,
the tick reads the queue length and issues exactly one `LPush` if and
only if `n` is strictly below capacity; when `n` is at or above
capacity no push is issued. -/
theorem fillTick_push_iff (dtb : DTB) (env : TickEnv) (n : Int)
    (hlen : env.llenRes = .ok n) :
    RedisOp.llen dtb.bucketName ∈ (fillTick dtb env).2 ∧
    (pushCount dtb.bucketName (fillTick dtb env).2 = 1 ↔ n < dtb.capacity) ∧
    (dtb.capacity ≤ n → pushCount dtb.bucketName (fillTick dtb env).2 = 0) := by
  by_cases h : n < dtb.capacity
  · rcases hp : env.lpushRes with e | k <;>
      simp [fillTick, pushCount, hlen, hp, h] <;> omega
  · simp [fillTick, pushCount, hlen, h]

/-- Witness for C2: capacity 5, queue length read as 0 — under
capacity, so exactly one push. -/
theorem fillTick_push_iff_witness :
    RedisOp.llen "b" ∈
      (fillTick ⟨"b", 5, 1000000000⟩ ⟨0, .ok 0, .ok 1, .ok ()⟩).2 ∧
    (pushCount "b" (fillTick ⟨"b", 5, 1000000000⟩ ⟨0, .ok 0, .ok 1, .ok ()⟩).2 = 1 ↔
      (0 : Int) < 5) ∧
    ((5 : Int) ≤ 0 →
      pushCount "b" (fillTick ⟨"b", 5, 1000000000⟩ ⟨0, .ok 0, .ok 1, .ok ()⟩).2 = 0) :=
  fillTick_push_iff ⟨"b", 5, 1000000000⟩ ⟨0, .ok 0, .ok 1, .ok ()⟩ 0 rfl

/-- C3 counterexample.  With cadence 1s and `now` = 0.5s, a successful
initial acquisition writes the lock value `2` (whole seconds), i.e.
the instant 2s — strictly earlier than `now + 2 × cadence` = 2.5s, so
the stored expiry is NOT ≥ `now + 2 × cadence`: `Unix()` truncation
loses the sub-second part. -/
theorem lease_write_below_candidate :
    lockWrites (DTB.lockKey ⟨"b", 5, 1000000000⟩)
        (acquireLock ⟨"b", 5, 1000000000⟩ 500000000
          ⟨.ok true, .ok 0, none, .ok 0⟩).2 = [2] ∧
    fromUnix 2 < 500000000 + DTB.lockDuration ⟨"b", 5, 1000000000⟩ := by
  constructor
  · decide
  · decide

/-- C3 amended.  Every value written to the lock key by a
believed-owner (the `SetNX` and `GetSet` candidates of `acquireLock`,
and the per-tick renewal `Set` of `fillTick`) is the whole-second
truncation of `now + 2 × cadence` at the moment of writing: as an
instant it lies in the half-open interval
`(now + 2 × cadence − 1s, now + 2 × cadence]` — at most one second
short of, and never beyond, `now + 2 × cadence`. -/
theorem lease_write_bounds (dtb : DTB) (now : Int)
    (env : AcquireLockEnv) (tenv : TickEnv) :
    (∀ w ∈ lockWrites dtb.lockKey (acquireLock dtb now env).2,
      w = unixOf (now + dtb.lockDuration) ∧
      now + dtb.lockDuration - nsPerSec < fromUnix w ∧
      fromUnix w ≤ now + dtb.lockDuration) ∧
    (∀ w ∈ lockWrites dtb.lockKey (fillTick dtb tenv).2,
      w = unixOf (tenv.now + dtb.lockDuration) ∧
      tenv.now + dtb.lockDuration - nsPerSec < fromUnix w ∧
      fromUnix w ≤ tenv.now + dtb.lockDuration) := by
  constructor
  · intro w hw
    rcases acquireLock_ops dtb now env with h | h | h <;>
      rw [h] at hw <;> simp [lockWrites] at hw <;> subst hw <;>
      exact ⟨rfl, (fromUnix_unixOf_bounds _).2, (fromUnix_unixOf_bounds _).1⟩
  · intro w hw
    rcases fillTick_ops dtb tenv with h | h | h | h <;>
      rw [h] at hw <;> simp [lockWrites] at hw <;> subst hw <;>
      exact ⟨rfl, (fromUnix_unixOf_bounds _).2, (fromUnix_unixOf_bounds _).1⟩

/-- Witness for the amended C3 at the counterexample's input: the
written value `2` is the truncation of 2.5s and lies within one second
below it. -/
theorem lease_write_bounds_witness :
    (2 : Int) = unixOf (500000000 + DTB.lockDuration ⟨"b", 5, 1000000000⟩) ∧
    500000000 + DTB.lockDuration ⟨"b", 5, 1000000000⟩ - nsPerSec < fromUnix 2 ∧
    fromUnix 2 ≤ 500000000 + DTB.lockDuration ⟨"b", 5, 1000000000⟩ :=
  (lease_write_bounds ⟨"b", 5, 1000000000⟩ 500000000
      ⟨.ok true, .ok 0, none, .ok 0⟩ ⟨0, .ok 0, .ok 1, .ok ()⟩).1 2 (by decide)

/-- C4 counterexample.  On an active tick where the queue read and the
push succeed but the renewal `Set` fails (`setRes = .error 7`), the
loop posts nothing and stays active: the Go code discards the `Set`
command's result, so a renewal failure is NOT surfaced and does NOT
stop the loop. -/
theorem renewal_error_ignored :
    (activeStep ⟨"b", 5, 1000000000⟩ ⟨0, .ok 0, .ok 1, .error 7⟩).1 =
      FillPhase.active ∧
    postCount (activeStep ⟨"b", 5, 1000000000⟩ ⟨0, .ok 0, .ok 1, .error 7⟩).2
      = 0 := by
  constructor
  · rfl
  · rfl

/-- C4 amended.  During an active tick, a failure of the queue-length
read or of the push posts that error to the fault channel and stops
the loop permanently; the renewal `Set`'s result, however, is
discarded, so whenever the length read succeeds and any attempted push
succeeds the loop continues with no fault posted, regardless of the
renewal write's outcome. -/
theorem tick_fault_handling (dtb : DTB) (env : TickEnv) :
    (∀ e, env.llenRes = .error e →
      activeStep dtb env =
        (.stopped, [.redis (.llen dtb.bucketName), .postErr e])) ∧
    (∀ n e, env.llenRes = .ok n → n < dtb.capacity →
      env.lpushRes = .error e →
      activeStep dtb env =
        (.stopped, [.redis (.llen dtb.bucketName),
                    .redis (.lpush dtb.bucketName), .postErr e])) ∧
    (∀ n, env.llenRes = .ok n →
      (n < dtb.capacity → ∃ k, env.lpushRes = .ok k) →
      (activeStep dtb env).1 = .active ∧
      postCount (activeStep dtb env).2 = 0) := by
  refine ⟨?_, ?_, ?_⟩
  · intro e he
    simp [activeStep, fillTick, he]
  · intro n e hn hlt hp
    simp [activeStep, fillTick, hn, hlt, hp]
  · intro n hn hok
    by_cases h : n < dtb.capacity
    · obtain ⟨k, hk⟩ := hok h
      simp [activeStep, fillTick, postCount, hn, h, hk]
    · simp [activeStep, fillTick, postCount, hn, h]

/-- Witness for the amended C4: a failing queue-length read posts the
error and stops the loop. -/
theorem tick_fault_handling_witness :
    activeStep ⟨"b", 5, 1000000000⟩ ⟨0, .error 3, .ok 1, .ok ()⟩ =
      (.stopped, [.redis (.llen "b"), .postErr 3]) :=
  (tick_fault_handling ⟨"b", 5, 1000000000⟩ ⟨0, .error 3, .ok 1, .ok ()⟩).1 3 rfl

/-- Splitting `postCount` over concatenation. -/
theorem postCount_append (a b : List FillEvent) :
    postCount (a ++ b) = postCount a + postCount b := by
  induction a with
  | nil => simp [postCount]
  | cons ev rest ih => cases ev <;> simp [postCount, ih] <;> omega

/-- Redis commands contribute nothing to `postCount`. -/
theorem postCount_map_redis (ops : List RedisOp) :
    postCount (ops.map FillEvent.redis) = 0 := by
  induction ops with
  | nil => rfl
  | cons op rest ih => simpa [postCount] using ih

/-- A stopped `fill` goroutine stays stopped and emits nothing. -/
theorem fillRun_stopped (dtb : DTB) (ins : List FillInput) :
    fillRun ⟨dtb, .stopped⟩ ins = (⟨dtb, .stopped⟩, []) := by
  induction ins with
  | nil => rfl
  | cons inp rest ih => simp [fillRun, fillStep, ih]

/-- `fillRun_stopped` through the `phase` projection. -/
theorem fillRun_of_stopped (m : FillMachine) (h : m.phase = .stopped)
    (ins : List FillInput) : fillRun m ins = (m, []) := by
  rcases m with ⟨d, p⟩
  cases h
  exact fillRun_stopped d ins

/-- A single `fill` step posts at most one error, and a step that
posts leaves the goroutine stopped. -/
theorem fillStep_posts (m : FillMachine) (inp : FillInput) :
    postCount (fillStep m inp).2 ≤ 1 ∧
    (0 < postCount (fillStep m inp).2 → (fillStep m inp).1.phase = .stopped) := by
  rcases m with ⟨dtb, ph⟩
  cases ph
  case acquiring =>
    rcases h : (acquireLock dtb inp.acq.now inp.acq.env).1 with e | r
    · constructor <;>
        simp [fillStep, acquiringStep, h, postCount_append, postCount_map_redis,
              postCount]
    · rcases r with _ | v <;> constructor <;>
        simp [fillStep, acquiringStep, h, postCount_map_redis, postCount]
  case active =>
    rcases h : (fillTick dtb inp.tick).1 with e | _
    · constructor <;>
        simp [fillStep, activeStep, h, postCount_append, postCount_map_redis,
              postCount]
    · constructor <;>
        simp [fillStep, activeStep, h, postCount_map_redis, postCount]
  case stopped =>
    constructor <;> simp [fillStep, postCount]

/-- Over any finite run, `fill` posts at most one error, and once it
has posted it is stopped. -/
theorem fillRun_posts (ins : List FillInput) (m : FillMachine) :
    postCount (fillRun m ins).2 ≤ 1 ∧
    (0 < postCount (fillRun m ins).2 → (fillRun m ins).1.phase = .stopped) := by
  induction ins generalizing m with
  | nil => simp [fillRun, postCount]
  | cons inp rest ih =>
    obtain ⟨s1, s2⟩ := fillStep_posts m inp
    obtain ⟨i1, i2⟩ := ih (fillStep m inp).1
    have hsplit : postCount (fillRun m (inp :: rest)).2 =
        postCount (fillStep m inp).2 +
        postCount (fillRun (fillStep m inp).1 rest).2 := by
      show postCount ((fillStep m inp).2 ++ (fillRun (fillStep m inp).1 rest).2) = _
      exact postCount_append _ _
    have hph : (fillRun m (inp :: rest)).1 = (fillRun (fillStep m inp).1 rest).1 := rfl
    constructor
    · by_cases hz : 0 < postCount (fillStep m inp).2
      · have habs := fillRun_of_stopped _ (s2 hz) rest
        rw [hsplit, habs]
        simpa [postCount] using s1
      · rw [hsplit]
        omega
    · intro hpos
      rw [hph]
      by_cases hz : 0 < postCount (fillRun (fillStep m inp).1 rest).2
      · exact i2 hz
      · have hz2 : 0 < postCount (fillStep m inp).2 := by
          rw [hsplit] at hpos
          omega
        have hstop := s2 hz2
        rw [fillRun_of_stopped _ hstop rest]
        exact hstop

/-- The `fill` goroutine never changes the bucket handle. -/
theorem fillRun_dtb (ins : List FillInput) (m : FillMachine) :
    (fillRun m ins).1.dtb = m.dtb := by
  induction ins generalizing m with
  | nil => rfl
  | cons inp rest ih =>
    have hstep : (fillStep m inp).1.dtb = m.dtb := by
      rcases m with ⟨dtb, ph⟩
      cases ph <;> rfl
    exact (ih (fillStep m inp).1).trans hstep

/-- `GetToken` callers never change the bucket handle. -/
theorem getTokenRun_dtb (pops : List (Except Err (List String)))
    (s : ClientState) : (getTokenRun s pops).1.dtb = s.dtb := by
  induction pops generalizing s with
  | nil => rfl
  | cons pop rest ih =>
    have hstep : (getTokenStep s pop).1.dtb = s.dtb := by
      rcases s with ⟨d, c⟩
      cases c <;> rfl
    exact (ih (getTokenStep s pop).1).trans hstep

/-- With an empty fault cell every `GetToken` call returns `nil`. -/
theorem getTokenRun_none_results (dtb : DTB)
    (pops : List (Except Err (List String))) :
    ∀ r ∈ (getTokenRun ⟨dtb, none⟩ pops).2, r = none := by
  induction pops with
  | nil => simp [getTokenRun]
  | cons pop rest ih =>
    intro r hr
    have hshape : (getTokenRun ⟨dtb, none⟩ (pop :: rest)).2 =
        none :: (getTokenRun ⟨dtb, none⟩ rest).2 := rfl
    rw [hshape] at hr
    rcases List.mem_cons.mp hr with h | h
    · exact h
    · exact ih r h

/-- C6.  The fault signal is single-shot: over any finite run the
`fill` goroutine sends at most one error and is stopped once it has
sent one; and a pending fault is observed by exactly the next
`GetToken` call — the first call returns it and every later call in
the sequence returns `nil`. -/
theorem fault_signal_single_shot (m : FillMachine) (ins : List FillInput)
    (dtb : DTB) (e : Err) (pop : Except Err (List String))
    (pops : List (Except Err (List String))) :
    postCount (fillRun m ins).2 ≤ 1 ∧
    (0 < postCount (fillRun m ins).2 → (fillRun m ins).1.phase = .stopped) ∧
    ((getTokenRun ⟨dtb, some e⟩ (pop :: pops)).2).head? = some (some e) ∧
    (∀ r ∈ ((getTokenRun ⟨dtb, some e⟩ (pop :: pops)).2).tail, r = none) := by
  refine ⟨(fillRun_posts ins m).1, (fillRun_posts ins m).2, rfl, ?_⟩
  have htail : ((getTokenRun ⟨dtb, some e⟩ (pop :: pops)).2).tail =
      (getTokenRun ⟨dtb, none⟩ pops).2 := rfl
  rw [htail]
  exact getTokenRun_none_results dtb pops

/-- Witness for C6: one acquiring iteration hits a store error, so the
run ends stopped with one post; a cell holding fault `5` is returned
to the first of two `GetToken` calls and the second returns `nil`. -/
theorem fault_signal_single_shot_witness :
    (fillRun ⟨⟨"b", 5, 1000000000⟩, .acquiring⟩
        [⟨⟨0, ⟨.error 4, .ok 0, none, .ok 0⟩⟩, ⟨0, .ok 0, .ok 1, .ok ()⟩⟩]).1.phase =
      FillPhase.stopped ∧
    ((getTokenRun ⟨⟨"b", 5, 1000000000⟩, some 5⟩ [.ok [], .ok []]).2).head? =
      some (some 5) ∧
    (none : Option Err) = none :=
  ⟨(fault_signal_single_shot ⟨⟨"b", 5, 1000000000⟩, .acquiring⟩
      [⟨⟨0, ⟨.error 4, .ok 0, none, .ok 0⟩⟩, ⟨0, .ok 0, .ok 1, .ok ()⟩⟩]
      ⟨"b", 5, 1000000000⟩ 5 (.ok []) [.ok []]).2.1 (by decide),
   (fault_signal_single_shot ⟨⟨"b", 5, 1000000000⟩, .acquiring⟩
      [⟨⟨0, ⟨.error 4, .ok 0, none, .ok 0⟩⟩, ⟨0, .ok 0, .ok 1, .ok ()⟩⟩]
      ⟨"b", 5, 1000000000⟩ 5 (.ok []) [.ok []]).2.2.1,
   (fault_signal_single_shot ⟨⟨"b", 5, 1000000000⟩, .acquiring⟩
      [⟨⟨0, ⟨.error 4, .ok 0, none, .ok 0⟩⟩, ⟨0, .ok 0, .ok 1, .ok ()⟩⟩]
      ⟨"b", 5, 1000000000⟩ 5 (.ok []) [.ok []]).2.2.2 none (by decide)⟩

/-- C7.  In the acquiring phase each iteration first sleeps one
cadence; a `(nil, nil)` acquisition repeats the phase; an acquisition
error stops the goroutine — the error is posted and a stopped
goroutine never runs again, so it never becomes active; and the phase
becomes active exactly when the acquisition reports ownership. -/
theorem acquiring_phase_step (dtb : DTB) (inp : AcquireInput)
    (ins : List FillInput) :
    (acquiringStep dtb inp).2.head? = some (.sleep dtb.cadence) ∧
    ((acquireLock dtb inp.now inp.env).1 = .ok none →
      (acquiringStep dtb inp).1 = .acquiring) ∧
    (∀ e, (acquireLock dtb inp.now inp.env).1 = .error e →
      (acquiringStep dtb inp).1 = .stopped ∧
      FillEvent.postErr e ∈ (acquiringStep dtb inp).2 ∧
      fillRun ⟨dtb, .stopped⟩ ins = (⟨dtb, .stopped⟩, [])) ∧
    ((acquiringStep dtb inp).1 = .active ↔
      ∃ v, (acquireLock dtb inp.now inp.env).1 = .ok (some v)) := by
  refine ⟨?_, ?_, ?_, ?_⟩
  · rcases h : (acquireLock dtb inp.now inp.env).1 with e | r
    · simp [acquiringStep, h]
    · rcases r with _ | v <;> simp [acquiringStep, h]
  · intro h
    simp [acquiringStep, h]
  · intro e h
    exact ⟨by simp [acquiringStep, h], by simp [acquiringStep, h],
      fillRun_stopped dtb ins⟩
  · constructor
    · intro h
      rcases hr : (acquireLock dtb inp.now inp.env).1 with e | r
      · simp [acquiringStep, hr] at h
      · rcases r with _ | v
        · simp [acquiringStep, hr] at h
        · exact ⟨v, rfl⟩
    · rintro ⟨v, h⟩
      simp [acquiringStep, h]

/-- Witness for C7: an acquiring iteration whose `SetNX` fails with
store error `4` stops the goroutine, posts the error, and the stopped
goroutine does nothing thereafter. -/
theorem acquiring_phase_step_witness :
    (acquiringStep ⟨"b", 5, 1000000000⟩ ⟨0, ⟨.error 4, .ok 0, none, .ok 0⟩⟩).1 =
      FillPhase.stopped ∧
    FillEvent.postErr 4 ∈
      (acquiringStep ⟨"b", 5, 1000000000⟩ ⟨0, ⟨.error 4, .ok 0, none, .ok 0⟩⟩).2 ∧
    fillRun ⟨⟨"b", 5, 1000000000⟩, .stopped⟩ [] =
      (⟨⟨"b", 5, 1000000000⟩, .stopped⟩, []) :=
  (acquiring_phase_step ⟨"b", 5, 1000000000⟩ ⟨0, ⟨.error 4, .ok 0, none, .ok 0⟩⟩
      []).2.2.1 4 rfl

/-- C9.  No operation modifies the configuration: over any finite run
of the `fill` goroutine and any sequence of `GetToken` calls, the
bucket handle (name, capacity, cadence) is left exactly as
constructed. -/
theorem config_immutable (m : FillMachine) (ins : List FillInput)
    (s : ClientState) (pops : List (Except Err (List String))) :
    (fillRun m ins).1.dtb = m.dtb ∧ (getTokenRun s pops).1.dtb = s.dtb :=
  ⟨fillRun_dtb ins m, getTokenRun_dtb pops s⟩

end DTBGo
